import Mathlib

/-!
Verification of the price ingestion, normalization and harvesting core of the
legendary-collectibles repository.

The development shallowly embeds the JavaScript/TypeScript source:

* JS numbers are modelled by `Option ℚ`: `none` stands for the non-finite
  values (`NaN`, `Infinity`, `-Infinity`), `some q` for a finite value.  The
  overflow of `Number(string)` to `Infinity` is modelled by the IEEE-754
  round-to-nearest overflow threshold `2^1024 - 2^970`.
* `process.env` reads become explicit `Option String` parameters.
* The database and the network become explicit state passing: the snapshot
  writer runs against a `PgState` (committed tables plus an optional open
  transaction buffer), the harvester against a list of ids and a pure
  `outcome` function describing each external call's result.
* The callback-driven request pool of the harvester becomes a step relation
  on a `PoolState`.
-/

set_option maxRecDepth 8192
set_option exponentiation.threshold 1100

/-! ## JavaScript primitives: whitespace, trimming, Number() -/

def isJsWs (c : Char) : Bool :=
  c == ' ' || c == '\t' || c == '\n' || c == '\x0b' || c == '\x0c' || c == '\r' ||
  c == ' ' || c == ' ' ||
  (0x2000 ≤ c.toNat && c.toNat ≤ 0x200A) ||
  c == ' ' || c == ' ' || c == ' ' || c == ' ' ||
  c == '　' || c == '﻿'

def jsTrim (s : String) : String :=
  String.mk (((s.toList.dropWhile isJsWs).reverse.dropWhile isJsWs).reverse)

def natOfDigits (cs : List Char) : ℕ :=
  cs.foldl (fun a c => a * 10 + (c.toNat - '0'.toNat)) 0

def allDigits (cs : List Char) : Bool :=
  cs.all Char.isDigit

def parseDecCore (cs : List Char) : Option ℚ :=
  let ip := cs.takeWhile Char.isDigit
  let rest := cs.dropWhile Char.isDigit
  match rest with
  | [] => if ip.isEmpty then none else some ((natOfDigits ip : ℚ))
  | '.' :: fp =>
      if allDigits fp ∧ (ip ≠ [] ∨ fp ≠ []) then
        some ((natOfDigits ip : ℚ) + (natOfDigits fp : ℚ) / (10 : ℚ) ^ fp.length)
      else none
  | _ => none

def parseExpPart (cs : List Char) : Option ℤ :=
  match cs with
  | '+' :: ds => if ds ≠ [] ∧ allDigits ds then some ((natOfDigits ds : ℤ)) else none
  | '-' :: ds => if ds ≠ [] ∧ allDigits ds then some (-(natOfDigits ds : ℤ)) else none
  | ds => if ds ≠ [] ∧ allDigits ds then some ((natOfDigits ds : ℤ)) else none

def parseDecLit (cs : List Char) : Option ℚ :=
  match cs.findIdx? (fun c => c == 'e' || c == 'E') with
  | none => parseDecCore cs
  | some i =>
      match parseDecCore (cs.take i), parseExpPart (cs.drop (i + 1)) with
      | some m, some e => some (m * (10 : ℚ) ^ e)
      | _, _ => none

def hexDigitVal (c : Char) : Option ℕ :=
  if c.isDigit then some (c.toNat - '0'.toNat)
  else if 'a' ≤ c ∧ c ≤ 'f' then some (c.toNat - 'a'.toNat + 10)
  else if 'A' ≤ c ∧ c ≤ 'F' then some (c.toNat - 'A'.toNat + 10)
  else none

def octDigitVal (c : Char) : Option ℕ :=
  if '0' ≤ c ∧ c ≤ '7' then some (c.toNat - '0'.toNat) else none

def binDigitVal (c : Char) : Option ℕ :=
  if c == '0' || c == '1' then some (c.toNat - '0'.toNat) else none

def parseRadix (base : ℕ) (digVal : Char → Option ℕ) (cs : List Char) : Option ℚ :=
  if cs.isEmpty then none
  else
    (cs.foldl
      (fun acc c =>
        match acc, digVal c with
        | some a, some d => some (a * base + d)
        | _, _ => none)
      (some 0)).map (fun n => (n : ℚ))

def infinityChars : List Char := "Infinity".toList

def jsStrToNumberCore (cs : List Char) : Option ℚ :=
  match cs with
  | '+' :: r => if r = infinityChars then none else parseDecLit r
  | '-' :: r => if r = infinityChars then none else (parseDecLit r).map Neg.neg
  | r =>
      if r = infinityChars then none
      else
        match r with
        | '0' :: k :: rest =>
            if k == 'x' || k == 'X' then parseRadix 16 hexDigitVal rest
            else if k == 'o' || k == 'O' then parseRadix 8 octDigitVal rest
            else if k == 'b' || k == 'B' then parseRadix 2 binDigitVal rest
            else parseDecLit r
        | _ => parseDecLit r

def jsOverflowBound : ℚ := ((2 ^ 1024 - 2 ^ 970 : ℕ) : ℚ)

/-- Model of the JavaScript `Number(string)` coercion, with `none` standing
for `NaN` and the infinities (`Number.isFinite` is false exactly on `none`). -/
def jsStrToNumber (s : String) : Option ℚ :=
  let t := (jsTrim s).toList
  if t.isEmpty then some 0
  else
    match jsStrToNumberCore t with
    | some q => if jsOverflowBound ≤ |q| then none else some q
    | none => none

/-! ## Money Normalizer: `parseMoneyToNumber` (src/lib/pricing.ts lines 14-30) -/

def jsContainsChar (s : String) (c : Char) : Bool :=
  s.toList.contains c

def isMoneyStripChar (c : Char) : Bool :=
  isJsWs c || c == ',' || c == '$' || c == '€' || c == '£' || c == '¥' || c == '₩'

def stripMoneySyms (s : String) : String :=
  String.mk (s.toList.filter (fun c => !(isMoneyStripChar c)))

def jsReplaceFirst (s : String) (a b : Char) : String :=
  String.mk (go s.toList)
where
  go : List Char → List Char
    | [] => []
    | c :: rest => if c = a then b :: rest else c :: go rest

def removeAllCommas (s : String) : String :=
  String.mk (s.toList.filter (fun c => !(c == ',')))

def parseMoneyToNumber (raw : Option String) : Option ℚ :=
  match raw with
  | none => none
  | some r =>
      if r = "" then none
      else
        let s0 := jsTrim r
        if s0 = "" then none
        else
          let s1 := stripMoneySyms s0
          let s2 :=
            if jsContainsChar s1 ',' && !(jsContainsChar s1 '.') then jsReplaceFirst s1 ',' '.'
            else s1
          let s3 := removeAllCommas s2
          jsStrToNumber s3

/-! ## FX Rate Provider: `getFx` (src/lib/pricing.ts lines 33-61) -/

def jsEnvNumber (raw : Option String) : Option ℚ :=
  match raw with
  | some s => if s = "" then none else jsStrToNumber s
  | none => none

def jsIsFinitePos (n : Option ℚ) : Bool :=
  match n with
  | some q => decide (0 < q)
  | none => false

/-- Embedding of `getFx`: the pair is `(usdToEur, eurToUsd)`, computed from the
raw environment strings `FX_USD_EUR` and `FX_EUR_USD`. -/
def getFx (rawUsdEur rawEurUsd : Option String) : Option ℚ × Option ℚ :=
  let usdEurParsed := jsEnvNumber rawUsdEur
  let eurUsdParsed := jsEnvNumber rawEurUsd
  let usdEurValid := jsIsFinitePos usdEurParsed
  let eurUsdValid := jsIsFinitePos eurUsdParsed
  let st0 : Option ℚ × Option ℚ := (none, none)
  let st1 := if usdEurValid then (usdEurParsed, usdEurParsed.map (fun q => 1 / q)) else st0
  let st2 := if eurUsdValid then (eurUsdParsed.map (fun q => 1 / q), eurUsdParsed) else st1
  st2

/-! ## Currency Converter / Formatter (src/lib/pricing.ts lines 63-98) -/

inductive Currency where
  | USD
  | EUR
deriving DecidableEq, Repr

inductive DisplayCurrency where
  | NATIVE
  | USD
  | EUR
deriving DecidableEq, Repr

/-- The FX environment: raw `FX_USD_EUR` and `FX_EUR_USD` values. -/
structure FxEnv where
  fxUsdEur : Option String
  fxEurUsd : Option String

def jsNumTruthy (n : Option ℚ) : Bool :=
  match n with
  | some q => decide (q ≠ 0)
  | none => false

def convert (env : FxEnv) (n : ℚ) (frm dst : Currency) : Option ℚ :=
  if frm = dst then some n
  else
    let fx := getFx env.fxUsdEur env.fxEurUsd
    if frm = Currency.USD ∧ dst = Currency.EUR ∧ jsNumTruthy fx.1 then
      fx.1.map (fun r => n * r)
    else if frm = Currency.EUR ∧ dst = Currency.USD ∧ jsNumTruthy fx.2 then
      fx.2.map (fun r => n * r)
    else none

def centsHalfExpand (q : ℚ) : ℤ :=
  let x := q * 100
  if 0 ≤ x then ⌊x + 1 / 2⌋ else -⌊-x + 1 / 2⌋

def commify : List Char → List Char
  | a :: b :: c :: d :: rest => a :: b :: c :: ',' :: commify (d :: rest)
  | l => l

def groupedNat (n : ℕ) : String :=
  String.mk ((commify (Nat.repr n).toList.reverse).reverse)

def pad2 (n : ℕ) : String :=
  if n < 10 then "0" ++ Nat.repr n else Nat.repr n

/-- Embedding of `formatMoney` (en-US currency formatting with two fraction
digits, round half away from zero, thousands grouping). -/
def formatMoney (q : ℚ) (c : Currency) : String :=
  let cents := centsHalfExpand q
  let a := cents.natAbs
  let sym := match c with
    | Currency.USD => "$"
    | Currency.EUR => "€"
  let sgn := if cents < 0 then "-" else ""
  sgn ++ sym ++ groupedNat (a / 100) ++ "." ++ pad2 (a % 100)

def dispEqSource : DisplayCurrency → Currency → Bool
  | DisplayCurrency.USD, Currency.USD => true
  | DisplayCurrency.EUR, Currency.EUR => true
  | _, _ => false

def dispCur : DisplayCurrency → Option Currency
  | DisplayCurrency.USD => some Currency.USD
  | DisplayCurrency.EUR => some Currency.EUR
  | DisplayCurrency.NATIVE => none

def maybeFormat (env : FxEnv) (valueText : Option String) (source : Currency)
    (display : DisplayCurrency) : Option String :=
  match parseMoneyToNumber valueText with
  | none => none
  | some n =>
      if display = DisplayCurrency.NATIVE ∨ dispEqSource display source then
        some (formatMoney n source)
      else
        match dispCur display with
        | none => some (formatMoney n source)
        | some tgt =>
            match convert env n source tgt with
            | none => some (formatMoney n source)
            | some q => some (formatMoney q tgt)

/-! ## Series endpoint helper: `clampDays` (history route, lines 34-37) -/

def clampDays (x : Option ℚ) : ℤ :=
  match x with
  | none => 90
  | some q => min 365 (max 1 ⌊q⌋)

/-! ## Snapshot Writer (scripts/snapshotPrices.js)

The pg client is modelled as a `PgState`: the committed history tables plus
an optional open transaction buffer.  `BEGIN` copies the committed state into
the buffer, inserts write to the buffer, `COMMIT` promotes the buffer,
`ROLLBACK` discards it.  Insert failures are modelled by a caller-supplied
predicate on the inserted row, and the implementation-dependent timestamp
parsing `Date.parse` by a caller-supplied partial function `dp`. -/

structure TcgpCurRow where
  card_id : String
  updated_at : Option String
  currency : Option String
  normal : Option String
  holofoil : Option String
  reverse_holofoil : Option String
  first_edition_holofoil : Option String
  first_edition_normal : Option String
deriving DecidableEq, Repr

structure TcgpHistRow where
  card_id : String
  source_updated_at : Option ℤ
  currency : Option String
  normal : Option ℚ
  holofoil : Option ℚ
  reverse_holofoil : Option ℚ
  first_edition_holofoil : Option ℚ
  first_edition_normal : Option ℚ
deriving DecidableEq, Repr

structure CmCurRow where
  card_id : String
  updated_at : Option String
  average_sell_price : Option String
  low_price : Option String
  trend_price : Option String
  german_pro_low : Option String
  suggested_price : Option String
  reverse_holo_sell : Option String
  reverse_holo_low : Option String
  reverse_holo_trend : Option String
  low_price_ex_plus : Option String
  avg1 : Option String
  avg7 : Option String
  avg30 : Option String
  reverse_holo_avg1 : Option String
  reverse_holo_avg7 : Option String
  reverse_holo_avg30 : Option String
deriving DecidableEq, Repr

structure CmHistRow where
  card_id : String
  source_updated_at : Option ℤ
  average_sell_price : Option ℚ
  low_price : Option ℚ
  trend_price : Option ℚ
  german_pro_low : Option ℚ
  suggested_price : Option ℚ
  reverse_holo_sell : Option ℚ
  reverse_holo_low : Option ℚ
  reverse_holo_trend : Option ℚ
  low_price_ex_plus : Option ℚ
  avg1 : Option ℚ
  avg7 : Option ℚ
  avg30 : Option ℚ
  reverse_holo_avg1 : Option ℚ
  reverse_holo_avg7 : Option ℚ
  reverse_holo_avg30 : Option ℚ
deriving DecidableEq, Repr

structure YgoCurRow where
  card_id : String
  tcgplayer_price : Option String
  cardmarket_price : Option String
  ebay_price : Option String
  amazon_price : Option String
  coolstuffinc_price : Option String
deriving DecidableEq, Repr

structure YgoHistRow where
  card_id : String
  tcgplayer_price : Option ℚ
  cardmarket_price : Option ℚ
  ebay_price : Option ℚ
  amazon_price : Option ℚ
  coolstuffinc_price : Option ℚ
deriving DecidableEq, Repr

/-- Embedding of `parseTs` with the `Date.parse` primitive abstracted as `dp`
(the parsed millisecond timestamp, `none` for NaN). -/
def parseTs (dp : String → Option ℤ) (raw : Option String) : Option ℤ :=
  match raw with
  | none => none
  | some s => if s = "" then none else dp s

def mkTcgpHist (dp : String → Option ℤ) (r : TcgpCurRow) : TcgpHistRow where
  card_id := r.card_id
  source_updated_at := parseTs dp r.updated_at
  currency := r.currency
  normal := parseMoneyToNumber r.normal
  holofoil := parseMoneyToNumber r.holofoil
  reverse_holofoil := parseMoneyToNumber r.reverse_holofoil
  first_edition_holofoil := parseMoneyToNumber r.first_edition_holofoil
  first_edition_normal := parseMoneyToNumber r.first_edition_normal

def mkCmHist (dp : String → Option ℤ) (r : CmCurRow) : CmHistRow where
  card_id := r.card_id
  source_updated_at := parseTs dp r.updated_at
  average_sell_price := parseMoneyToNumber r.average_sell_price
  low_price := parseMoneyToNumber r.low_price
  trend_price := parseMoneyToNumber r.trend_price
  german_pro_low := parseMoneyToNumber r.german_pro_low
  suggested_price := parseMoneyToNumber r.suggested_price
  reverse_holo_sell := parseMoneyToNumber r.reverse_holo_sell
  reverse_holo_low := parseMoneyToNumber r.reverse_holo_low
  reverse_holo_trend := parseMoneyToNumber r.reverse_holo_trend
  low_price_ex_plus := parseMoneyToNumber r.low_price_ex_plus
  avg1 := parseMoneyToNumber r.avg1
  avg7 := parseMoneyToNumber r.avg7
  avg30 := parseMoneyToNumber r.avg30
  reverse_holo_avg1 := parseMoneyToNumber r.reverse_holo_avg1
  reverse_holo_avg7 := parseMoneyToNumber r.reverse_holo_avg7
  reverse_holo_avg30 := parseMoneyToNumber r.reverse_holo_avg30

def mkYgoHist (r : YgoCurRow) : YgoHistRow where
  card_id := r.card_id
  tcgplayer_price := parseMoneyToNumber r.tcgplayer_price
  cardmarket_price := parseMoneyToNumber r.cardmarket_price
  ebay_price := parseMoneyToNumber r.ebay_price
  amazon_price := parseMoneyToNumber r.amazon_price
  coolstuffinc_price := parseMoneyToNumber r.coolstuffinc_price

/-- One pending history-table insert. -/
inductive HistIns where
  | tcgp (r : TcgpHistRow)
  | cm (r : CmHistRow)
  | ygo (r : YgoHistRow)
deriving DecidableEq, Repr

structure HistDB where
  tcgp : List TcgpHistRow
  cm : List CmHistRow
  ygo : List YgoHistRow
deriving DecidableEq, Repr

def insertInto (db : HistDB) : HistIns → HistDB
  | HistIns.tcgp r => { db with tcgp := db.tcgp ++ [r] }
  | HistIns.cm r => { db with cm := db.cm ++ [r] }
  | HistIns.ygo r => { db with ygo := db.ygo ++ [r] }

def applyIns (db : HistDB) (ins : List HistIns) : HistDB :=
  ins.foldl insertInto db

structure PgState where
  committed : HistDB
  txn : Option HistDB
deriving DecidableEq, Repr

def q_begin (s : PgState) : PgState :=
  { s with txn := some s.committed }

def q_commit (s : PgState) : PgState :=
  { committed := s.txn.getD s.committed, txn := none }

def q_rollback (s : PgState) : PgState :=
  { s with txn := none }

/-- A single `INSERT` query: fails when the failure predicate holds for the
row, otherwise appends the row to the open transaction buffer (or directly to
the committed state when no transaction is open). -/
def q_insert (fail : HistIns → Bool) (i : HistIns) (s : PgState) : Option PgState :=
  if fail i then none
  else
    match s.txn with
    | some buf => some { s with txn := some (insertInto buf i) }
    | none => some { s with committed := insertInto s.committed i }

/-- The row-by-row insert loop shared by the three snapshot functions: inserts
each row in order, counts the inserted rows, and aborts at the first failing
insert (the thrown error carries the client state at the failure point). -/
def insertLoop (fail : HistIns → Bool) : List HistIns → PgState → Except PgState (PgState × ℕ)
  | [], s => Except.ok (s, 0)
  | i :: rest, s =>
      match q_insert fail i s with
      | none => Except.error s
      | some s' =>
          match insertLoop fail rest s' with
          | Except.error sE => Except.error sE
          | Except.ok (sF, k) => Except.ok (sF, k + 1)

def snapshotPokemonTcgplayer (fail : HistIns → Bool) (dp : String → Option ℤ)
    (rows : List TcgpCurRow) (s : PgState) : Except PgState (PgState × ℕ) :=
  insertLoop fail (rows.map (fun r => HistIns.tcgp (mkTcgpHist dp r))) s

def snapshotPokemonCardmarket (fail : HistIns → Bool) (dp : String → Option ℤ)
    (rows : List CmCurRow) (s : PgState) : Except PgState (PgState × ℕ) :=
  insertLoop fail (rows.map (fun r => HistIns.cm (mkCmHist dp r))) s

def snapshotYgo (fail : HistIns → Bool)
    (rows : List YgoCurRow) (s : PgState) : Except PgState (PgState × ℕ) :=
  insertLoop fail (rows.map (fun r => HistIns.ygo (mkYgoHist r))) s

structure SnapOut where
  db : HistDB
  exitCode : ℕ
  counts : Option (ℕ × ℕ × ℕ)
deriving DecidableEq, Repr

/-- Embedding of the snapshot script's `main`: BEGIN, the three snapshot
functions in order, COMMIT; on any failure ROLLBACK and exit code 1. -/
def snapMain (fail : HistIns → Bool) (dp : String → Option ℤ)
    (tcgpRows : List TcgpCurRow) (cmRows : List CmCurRow) (ygoRows : List YgoCurRow)
    (db0 : HistDB) : SnapOut :=
  let s1 := q_begin ⟨db0, none⟩
  match snapshotPokemonTcgplayer fail dp tcgpRows s1 with
  | Except.error sE => ⟨(q_rollback sE).committed, 1, none⟩
  | Except.ok (s2, a) =>
      match snapshotPokemonCardmarket fail dp cmRows s2 with
      | Except.error sE => ⟨(q_rollback sE).committed, 1, none⟩
      | Except.ok (s3, b) =>
          match snapshotYgo fail ygoRows s3 with
          | Except.error sE => ⟨(q_rollback sE).committed, 1, none⟩
          | Except.ok (s4, c) => ⟨(q_commit s4).committed, 0, some (a, b, c)⟩

/-- All inserts a snapshot run attempts, in execution order. -/
def snapAllIns (dp : String → Option ℤ) (tcgpRows : List TcgpCurRow)
    (cmRows : List CmCurRow) (ygoRows : List YgoCurRow) : List HistIns :=
  tcgpRows.map (fun r => HistIns.tcgp (mkTcgpHist dp r)) ++
  cmRows.map (fun r => HistIns.cm (mkCmHist dp r)) ++
  ygoRows.map (fun r => HistIns.ygo (mkYgoHist r))

/-! ## Paginated Concurrent Harvester (scripts/cron/fetchYgoEbayPrices.mjs)

The id space is a list of ids over an arbitrary linear order (card ids are
text, ordered by the database); the external endpoint is a pure function
from id to `FetchOutcome`.  `poolRun`'s callback scheduling is modelled by a
step relation on `PoolState` further below. -/

def jsMaxNum (a b : Option ℚ) : Option ℚ :=
  match a, b with
  | some x, some y => some (max x y)
  | _, _ => none

def jsMinNum (a b : Option ℚ) : Option ℚ :=
  match a, b with
  | some x, some y => some (min x y)
  | _, _ => none

/-- Embedding of `CONCURRENCY = Math.min(8, Math.max(1, Number(flags.get('concurrency') ?? '4')))`. -/
def concurrencyFlag (flag : Option String) : Option ℚ :=
  jsMinNum (some 8) (jsMaxNum (some 1) (jsStrToNumber (flag.getD "4")))

/-- Embedding of `BATCH = Math.max(50, Number(flags.get('batch') ?? '500'))`. -/
def batchFlag (flag : Option String) : Option ℚ :=
  jsMaxNum (some 50) (jsStrToNumber (flag.getD "500"))

/-- A minimal JSON primitive value, for the fields of the endpoint's response
body that the harvester inspects, together with JS truthiness. -/
inductive JPrim where
  | jstr (s : String)
  | jnum (q : ℚ)
  | jbool (b : Bool)
  | jnull
deriving DecidableEq, Repr

def JPrim.truthy : JPrim → Bool
  | JPrim.jstr s => !(s == "")
  | JPrim.jnum q => decide (q ≠ 0)
  | JPrim.jbool b => b
  | JPrim.jnull => false

/-- Parsed JSON body of the price endpoint: the fields the harvester reads
(`res.ok`, `res.item.price.value`, `res.item.itemWebUrl`, `res.error`), with
absent optional chains collapsed to `jnull` (undefined). -/
structure ApiResp where
  okField : JPrim
  priceField : JPrim
  urlField : JPrim
  errorField : JPrim
deriving DecidableEq, Repr

/-- Outcome of one `fetch` of the price endpoint: either a transport-level
failure, or a response with its `ok` flag (2xx status), status code, a
JSON content type or not, and a body that parses as JSON or not. -/
inductive FetchOutcome where
  | transportError (msg : String)
  | response (ok : Bool) (status : ℕ) (ctJson : Bool) (body : Option ApiResp)
deriving DecidableEq, Repr

/-- The literal object `{ ok: false, error: 'non-json-ok' }` returned for a
2xx non-JSON response whose body fails to parse as JSON. -/
def nonJsonOkResp : ApiResp :=
  ⟨JPrim.jbool false, JPrim.jnull, JPrim.jnull, JPrim.jstr "non-json-ok"⟩

/-- Embedding of `fetchOne`: transport errors and non-2xx statuses throw; a
2xx response with JSON content type parses the body with `res.json()` (which
rejects on a non-JSON body); a 2xx response with a non-JSON content type is
re-parsed leniently, substituting `nonJsonOkResp` when unparseable. -/
def fetchOne : FetchOutcome → Except String ApiResp
  | FetchOutcome.transportError m => Except.error ("Fetch failed: " ++ m)
  | FetchOutcome.response ok status ctJson body =>
      if !ok then Except.error ("HTTP " ++ Nat.repr status)
      else if !ctJson then
        match body with
        | some j => Except.ok j
        | none => Except.ok nonJsonOkResp
      else
        match body with
        | some j => Except.ok j
        | none => Except.error "invalid json"

/-- Per-id classification performed by the main loop's result handling. -/
inductive Outcome where
  | found
  | notFound
  | err
deriving DecidableEq, Repr

def classifyResult (r : Except String ApiResp) : Outcome :=
  match r with
  | Except.error _ => Outcome.err
  | Except.ok j =>
      if j.okField.truthy && j.priceField.truthy then Outcome.found
      else if j.okField.truthy then Outcome.notFound
      else Outcome.err

/-- A fetch outcome the spec classifies as a harvester-level error: a
transport failure, a non-2xx status, or a response body that is not JSON. -/
def badFetch : FetchOutcome → Bool
  | FetchOutcome.transportError _ => true
  | FetchOutcome.response ok _ _ body => !ok || body.isNone

section Harvester

variable {α : Type} [LinearOrder α]

/-- Trace events of one harvester run: `resolve ids` records that every
request of the batch `ids` has resolved (success, not-found or error);
`save c` records one overwrite of the persisted cursor file with `c`. -/
inductive Ev (α : Type) where
  | resolve (ids : List α)
  | save (c : α)
deriving DecidableEq, Repr

def afterOk (after : Option α) (x : α) : Bool :=
  match after with
  | none => true
  | some a => decide (a < x)

/-- Embedding of `getIdsPage`: ids strictly greater than the cursor (plus the
optional freshness filter `extra`), in ascending order, limited to the batch
size.  The unordered table is modelled by an arbitrary list; `ORDER BY` by
sorting it. -/
def getIdsPage (allIds : List α) (extra : α → Bool) (after : Option α) (limit : ℕ) : List α :=
  (((allIds.filter (fun x => afterOk after x && extra x)).insertionSort (· ≤ ·)).take limit)

/-- Embedding of `loadCursor`: the `--startAfter` override wins, otherwise
the persisted cursor file's contents. -/
def loadCursor (startAfter fileContents : Option α) : Option α :=
  match startAfter with
  | some a => some a
  | none => fileContents

structure HarvestCfg where
  limit : ℕ
  batch : ℕ
  dryRun : Bool
deriving Repr

structure RunState (α : Type) where
  processed : ℕ
  found : ℕ
  errors : ℕ
  cursor : Option α
  file : Option α
  trace : List (Ev α)
  processedIds : List α
deriving Repr

def poolResults (outcome : α → FetchOutcome) (ids : List α) :
    List (α × Except String ApiResp) :=
  ids.map (fun i => (i, fetchOne (outcome i)))

/-- One batch of the harvester's main loop body: in non-dry-run mode await
the pool results, classify them and update the counters, recording the
batch's resolution; then (in either mode) advance the cursor to the batch's
last id, persist it to the cursor file and account the batch as processed. -/
def runBatch (cfg : HarvestCfg) (outcome : α → FetchOutcome) (st : RunState α)
    (ids : List α) (last : α) : RunState α :=
  let st1 :=
    if cfg.dryRun then st
    else
      let outs := (poolResults outcome ids).map (fun p => classifyResult p.2)
      { st with
        found := st.found + outs.countP (fun o => o == Outcome.found),
        errors := st.errors + outs.countP (fun o => o == Outcome.err),
        trace := Ev.resolve ids :: st.trace }
  { st1 with
    processed := st1.processed + ids.length,
    cursor := some last,
    file := some last,
    trace := Ev.save last :: st1.trace,
    processedIds := st1.processedIds ++ ids }

/-- Embedding of the harvester's main loop (fuel-indexed; the real loop
terminates because the id space is finite and the cursor strictly grows).
`file` is the persisted cursor file, `trace` records batch resolution and
cursor writes, newest first. -/
def mainLoop (cfg : HarvestCfg) (allIds : List α) (extra : α → Bool)
    (outcome : α → FetchOutcome) : ℕ → RunState α → RunState α
  | 0, st => st
  | fuel + 1, st =>
      let toFetch := getIdsPage allIds extra st.cursor cfg.batch
      if toFetch.isEmpty then st
      else
        let remainingCap := if 0 < cfg.limit then cfg.limit - st.processed else toFetch.length
        let ids := toFetch.take remainingCap
        match ids.getLast? with
        | none => st
        | some last =>
            let st2 := runBatch cfg outcome st ids last
            if 0 < cfg.limit ∧ cfg.limit ≤ st2.processed then st2
            else mainLoop cfg allIds extra outcome fuel st2

end Harvester

/-! ## The request pool `poolRun`

`poolRun` keeps an `inFlight` counter and an index `idx` into the batch; the
`launch` closure starts requests while `inFlight < concurrency` and ids
remain; each completion decrements `inFlight`, appends a result and calls
`launch` again.  `launchFill` is the inner while loop; `PoolStep` relates a
state to the state after one request completes; `PoolReach` is the set of
states reachable during the run of a batch of `total` ids. -/

structure PoolState where
  idx : ℕ
  inFlight : ℕ
  results : ℕ
deriving DecidableEq, Repr

def launchFill (c total : ℕ) : ℕ → PoolState → PoolState
  | 0, s => s
  | fuel + 1, s =>
      if s.inFlight < c ∧ s.idx < total then
        launchFill c total fuel ⟨s.idx + 1, s.inFlight + 1, s.results⟩
      else s

def poolInit (c total : ℕ) : PoolState :=
  launchFill c total total ⟨0, 0, 0⟩

inductive PoolReach (c total : ℕ) : PoolState → Prop
  | init : PoolReach c total (poolInit c total)
  | complete (s : PoolState) :
      PoolReach c total s → 0 < s.inFlight →
      PoolReach c total (launchFill c total total ⟨s.idx, s.inFlight - 1, s.results + 1⟩)

/-! ## Harvester specification predicates -/

/-- Well-formed harvester trace (newest event first): cursor writes and batch
resolutions alternate, each cursor write immediately follows the resolution
of its batch and records that batch's last id. -/
inductive TraceOk {α : Type} : List (Ev α) → Prop where
  | nil : TraceOk []
  | step (ids : List α) (c : α) (rest : List (Ev α)) :
      ids.getLast? = some c → TraceOk rest →
      TraceOk (Ev.save c :: Ev.resolve ids :: rest)

def isResolveEv {α : Type} : Ev α → Bool
  | Ev.resolve _ => true
  | Ev.save _ => false

/-- Number of ids of a batch whose fetch result the main loop classifies as
an error. -/
def errCount {α : Type} (outcome : α → FetchOutcome) (ids : List α) : ℕ :=
  ((poolResults outcome ids).map (fun p => classifyResult p.2)).countP
    (fun o => o == Outcome.err)

/-- Number of ids of a batch whose fetch result the main loop classifies as
found. -/
def foundCount {α : Type} (outcome : α → FetchOutcome) (ids : List α) : ℕ :=
  ((poolResults outcome ids).map (fun p => classifyResult p.2)).countP
    (fun o => o == Outcome.found)

/-- Run-state invariant: once anything has been processed, the in-memory
cursor and the persisted cursor file both hold an id that bounds every
processed id from above. -/
def CursorInv {α : Type} [LinearOrder α] (st : RunState α) : Prop :=
  st.processedIds = [] ∨
    ∃ c, st.cursor = some c ∧ st.file = some c ∧ ∀ x ∈ st.processedIds, x ≤ c

/-- Agreement of two run states on every control-relevant component (all
fields except the `found`/`errors` counters). -/
def CtrlEq {α : Type} (s t : RunState α) : Prop :=
  s.processed = t.processed ∧ s.cursor = t.cursor ∧ s.file = t.file ∧
  s.trace = t.trace ∧ s.processedIds = t.processedIds

/-! ## Theorems -/

/-- C1: the spec says a comma without a period is treated as a decimal
separator and replaced by a period before parsing, with
`parseMoneyToNumber "1.234,56 €" = 1234.56`.  The code's first replace
already strips every comma (its character class includes `,`), so the
decimal-comma branch is dead: `"3,50"` parses as `350` (not `3.50`) and
`"1.234,56 €"` parses as `1.23456` (not `1234.56`). -/
theorem parseMoneyToNumber_comma_bug :
    parseMoneyToNumber (some "3,50") = some (350 : ℚ) ∧
    parseMoneyToNumber (some "1.234,56 €") = some (1.23456 : ℚ) ∧
    (350 : ℚ) ≠ (3.50 : ℚ) ∧ (1.23456 : ℚ) ≠ (1234.56 : ℚ) :=
  ⟨by with_unfolding_all rfl, by with_unfolding_all rfl, by norm_num, by norm_num⟩

/-- C2 (amended): `getFx` derives a missing direction as the reciprocal of
the single valid configured direction; but when `FX_EUR_USD` is valid it
always wins for its own direction and *overwrites* `usdToEur` with its
reciprocal, even when `FX_USD_EUR` is also independently configured and
valid; when neither is valid both directions are null. -/
theorem getFx_amended (rawU rawE : Option String) :
    (∀ q : ℚ, jsEnvNumber rawU = some q →
      jsIsFinitePos (jsEnvNumber rawU) = true →
      jsIsFinitePos (jsEnvNumber rawE) = false →
      getFx rawU rawE = (some q, some (1 / q))) ∧
    (∀ q : ℚ, jsEnvNumber rawE = some q →
      jsIsFinitePos (jsEnvNumber rawE) = true →
      getFx rawU rawE = (some (1 / q), some q)) ∧
    (jsIsFinitePos (jsEnvNumber rawU) = false →
      jsIsFinitePos (jsEnvNumber rawE) = false →
      getFx rawU rawE = (none, none)) := by
  refine ⟨?_, ?_, ?_⟩
  · intro q hq hU hE
    simp only [getFx]
    rw [hU, hE]
    simp [hq]
  · intro q hq hE
    simp only [getFx]
    rw [hE]
    simp [hq]
  · intro hU hE
    simp only [getFx]
    rw [hU, hE]
    simp

/-- Witness for C2 at a concrete input: with only `FX_USD_EUR=0.92`
configured, the returned pair is `(0.92, 1/0.92)`. -/
theorem getFx_amended_witness :
    getFx (some "0.92") none = (some (23 / 25 : ℚ), some (1 / (23 / 25) : ℚ)) :=
  (getFx_amended (some "0.92") none).1 (23 / 25)
    (by with_unfolding_all rfl) (by with_unfolding_all rfl) rfl

/-- C2 counterexample: both directions configured and valid
(`FX_USD_EUR=0.92`, `FX_EUR_USD=2`), yet the returned `usdToEur` is `1/2`,
the reciprocal of the other direction, not the configured `0.92`. -/
theorem getFx_both_configured_counterexample :
    jsIsFinitePos (jsEnvNumber (some "0.92")) = true ∧
    jsIsFinitePos (jsEnvNumber (some "2")) = true ∧
    getFx (some "0.92") (some "2") = (some (1 / 2 : ℚ), some (2 : ℚ)) ∧
    (1 / 2 : ℚ) ≠ (0.92 : ℚ) :=
  ⟨by with_unfolding_all rfl, by with_unfolding_all rfl,
   by with_unfolding_all rfl, by norm_num⟩

/-- C8: `parseMoneyToNumber` totally returns a finite value or null: null
input, empty and all-whitespace strings, unparseable text, the textual
infinities and overflowing magnitudes all map to null, and
`"$1,234.56"` parses to `1234.56`. -/
theorem parseMoneyToNumber_total_finite :
    (∀ raw, parseMoneyToNumber raw = none ∨ ∃ q : ℚ, parseMoneyToNumber raw = some q) ∧
    parseMoneyToNumber none = none ∧
    parseMoneyToNumber (some "") = none ∧
    parseMoneyToNumber (some "   ") = none ∧
    parseMoneyToNumber (some "abc") = none ∧
    parseMoneyToNumber (some "$1,234.56") = some (1234.56 : ℚ) ∧
    parseMoneyToNumber (some "Infinity") = none := by
  refine ⟨fun raw => ?_, rfl, by with_unfolding_all rfl, by with_unfolding_all rfl,
    by with_unfolding_all rfl, by with_unfolding_all rfl, by with_unfolding_all rfl⟩
  cases h : parseMoneyToNumber raw with
  | none => exact Or.inl rfl
  | some q => exact Or.inr ⟨q, rfl⟩

/-- C9: `clampDays` maps every finite numeric input into the inclusive range
`[1, 365]` (`-5 ↦ 1`, `9999 ↦ 365`) and every non-finite input (`NaN`,
`±Infinity`) to the default `90`. -/
theorem clampDays_spec :
    (∀ q : ℚ, 1 ≤ clampDays (some q) ∧ clampDays (some q) ≤ 365) ∧
    clampDays (some (-5 : ℚ)) = 1 ∧
    clampDays (some (9999 : ℚ)) = 365 ∧
    clampDays none = 90 := by
  refine ⟨fun q => ?_, by with_unfolding_all rfl, by with_unfolding_all rfl, rfl⟩
  unfold clampDays
  constructor
  · exact le_min (by norm_num) (le_max_left 1 ⌊q⌋)
  · exact min_le_left 365 (max 1 ⌊q⌋)

/-- C7: `maybeFormat` returns null exactly when the raw text fails to parse;
for a parsed amount it always returns a formatted string: in the source
currency when the display is NATIVE or equals the source, in the display
currency when conversion succeeds, and falling back to the source currency
when no usable FX rate exists. -/
theorem maybeFormat_spec (env : FxEnv) (v : Option String) (s : Currency)
    (d : DisplayCurrency) :
    (maybeFormat env v s d = none ↔ parseMoneyToNumber v = none) ∧
    (∀ q : ℚ, parseMoneyToNumber v = some q →
      ((d = DisplayCurrency.NATIVE ∨ dispEqSource d s = true) →
        maybeFormat env v s d = some (formatMoney q s)) ∧
      (∀ tgt : Currency, dispCur d = some tgt → dispEqSource d s = false →
        (convert env q s tgt = none →
          maybeFormat env v s d = some (formatMoney q s)) ∧
        (∀ q' : ℚ, convert env q s tgt = some q' →
          maybeFormat env v s d = some (formatMoney q' tgt)))) := by
  constructor
  · cases hp : parseMoneyToNumber v with
    | none => simp [maybeFormat, hp]
    | some q =>
        have hs : (maybeFormat env v s d).isSome = true := by
          simp only [maybeFormat, hp]
          split
          · rfl
          · split
            · rfl
            · split
              · rfl
              · rfl
        constructor
        · intro h
          rw [h] at hs
          simp at hs
        · intro h
          exact absurd h (by simp)
  · intro q hq
    refine ⟨?_, ?_⟩
    · intro hnat
      simp only [maybeFormat, hq]
      rw [if_pos hnat]
    · intro tgt htgt hne
      have hdn : d ≠ DisplayCurrency.NATIVE := by
        intro h
        rw [h] at htgt
        simp [dispCur] at htgt
      have hcond : ¬(d = DisplayCurrency.NATIVE ∨ dispEqSource d s = true) := by
        simp [hdn, hne]
      refine ⟨?_, ?_⟩
      · intro hc
        simp only [maybeFormat, hq]
        rw [if_neg hcond]
        simp only [htgt, hc]
      · intro q' hc
        simp only [maybeFormat, hq]
        rw [if_neg hcond]
        simp only [htgt, hc]

/-- Witness for C7 at a concrete input: with no FX configured, formatting
`"3.50"` (USD) for EUR display falls back to the source currency. -/
theorem maybeFormat_spec_witness :
    maybeFormat ⟨none, none⟩ (some "3.50") Currency.USD DisplayCurrency.EUR =
      some (formatMoney (7 / 2 : ℚ) Currency.USD) :=
  (((maybeFormat_spec ⟨none, none⟩ (some "3.50") Currency.USD DisplayCurrency.EUR).2
      (7 / 2) (by with_unfolding_all rfl)).2 Currency.EUR rfl rfl).1 rfl

theorem q_insert_txn (fail : HistIns → Bool) (i : HistIns) (com b : HistDB) :
    q_insert fail i ⟨com, some b⟩ =
      if fail i then none else some ⟨com, some (insertInto b i)⟩ := by
  unfold q_insert
  cases fail i <;> simp

theorem insertLoop_ok_all (fail : HistIns → Bool) :
    ∀ (ins : List HistIns) (com b : HistDB), (∀ i ∈ ins, fail i = false) →
      insertLoop fail ins ⟨com, some b⟩ =
        Except.ok (⟨com, some (applyIns b ins)⟩, ins.length) := by
  intro ins
  induction ins with
  | nil => intro com b _; simp [insertLoop, applyIns]
  | cons i rest ih =>
      intro com b hall
      have hi : fail i = false := hall i (List.mem_cons_self i rest)
      have hrest : ∀ j ∈ rest, fail j = false := fun j hj => hall j (List.mem_cons_of_mem i hj)
      simp only [insertLoop, q_insert_txn, hi, if_neg Bool.false_ne_true,
        ih com (insertInto b i) hrest]
      simp [applyIns]

theorem insertLoop_error_exists (fail : HistIns → Bool) :
    ∀ (ins : List HistIns) (com b : HistDB), (∃ i ∈ ins, fail i = true) →
      ∃ sE, insertLoop fail ins ⟨com, some b⟩ = Except.error sE ∧ sE.committed = com := by
  intro ins
  induction ins with
  | nil => intro com b hex; simp at hex
  | cons i rest ih =>
      intro com b hex
      cases hfi : fail i with
      | true =>
          refine ⟨⟨com, some b⟩, ?_, rfl⟩
          simp [insertLoop, q_insert_txn, hfi]
      | false =>
          have hex' : ∃ j ∈ rest, fail j = true := by
            rcases hex with ⟨j, hj, hfj⟩
            rcases List.mem_cons.mp hj with h | h
            · rw [h] at hfj; rw [hfj] at hfi; cases hfi
            · exact ⟨j, h, hfj⟩
          obtain ⟨sE, hE, hcom⟩ := ih com (insertInto b i) hex'
          refine ⟨sE, ?_, hcom⟩
          simp [insertLoop, q_insert_txn, hfi, hE]

/-- C3: all history inserts of one snapshot run execute in a single
transaction: if any insert fails, the run rolls back completely (the history
tables are exactly those from before the run) and the process exit code is 1
with no counts; if no insert fails, all rows of all three tables are
appended and the per-table inserted row counts are reported. -/
theorem snapshot_transactional (fail : HistIns → Bool) (dp : String → Option ℤ)
    (tR : List TcgpCurRow) (cR : List CmCurRow) (yR : List YgoCurRow) (db0 : HistDB) :
    ((∃ i ∈ snapAllIns dp tR cR yR, fail i = true) →
      (snapMain fail dp tR cR yR db0).db = db0 ∧
      (snapMain fail dp tR cR yR db0).exitCode = 1 ∧
      (snapMain fail dp tR cR yR db0).counts = none) ∧
    ((∀ i ∈ snapAllIns dp tR cR yR, fail i = false) →
      (snapMain fail dp tR cR yR db0).db = applyIns db0 (snapAllIns dp tR cR yR) ∧
      (snapMain fail dp tR cR yR db0).exitCode = 0 ∧
      (snapMain fail dp tR cR yR db0).counts = some (tR.length, cR.length, yR.length)) := by
  set L1 := tR.map (fun r => HistIns.tcgp (mkTcgpHist dp r)) with hL1
  set L2 := cR.map (fun r => HistIns.cm (mkCmHist dp r)) with hL2
  set L3 := yR.map (fun r => HistIns.ygo (mkYgoHist r)) with hL3
  have hall : snapAllIns dp tR cR yR = L1 ++ L2 ++ L3 := rfl
  constructor
  · intro hex
    rw [hall] at hex
    by_cases h1 : ∃ i ∈ L1, fail i = true
    · obtain ⟨sE, hE, hcom⟩ := insertLoop_error_exists fail L1 db0 db0 h1
      simp only [snapMain, q_begin, snapshotPokemonTcgplayer, ← hL1, hE, q_rollback]
      exact ⟨hcom, trivial, trivial⟩
    · have hall1 : ∀ i ∈ L1, fail i = false := by
        intro i hi
        cases hfi : fail i with
        | false => rfl
        | true => exact absurd ⟨i, hi, hfi⟩ h1
      have hok1 := insertLoop_ok_all fail L1 db0 db0 hall1
      by_cases h2 : ∃ i ∈ L2, fail i = true
      · obtain ⟨sE, hE, hcom⟩ := insertLoop_error_exists fail L2 db0 (applyIns db0 L1) h2
        simp only [snapMain, q_begin, snapshotPokemonTcgplayer, snapshotPokemonCardmarket,
          ← hL1, ← hL2, hok1, hE, q_rollback]
        exact ⟨hcom, trivial, trivial⟩
      · have hall2 : ∀ i ∈ L2, fail i = false := by
          intro i hi
          cases hfi : fail i with
          | false => rfl
          | true => exact absurd ⟨i, hi, hfi⟩ h2
        have hok2 := insertLoop_ok_all fail L2 db0 (applyIns db0 L1) hall2
        have h3 : ∃ i ∈ L3, fail i = true := by
          rcases hex with ⟨i, hi, hfi⟩
          rcases List.mem_append.mp hi with h12 | hin3
          · rcases List.mem_append.mp h12 with hin1 | hin2
            · have hc := hall1 i hin1
              rw [hfi] at hc
              exact Bool.noConfusion hc
            · have hc := hall2 i hin2
              rw [hfi] at hc
              exact Bool.noConfusion hc
          · exact ⟨i, hin3, hfi⟩
        obtain ⟨sE, hE, hcom⟩ :=
          insertLoop_error_exists fail L3 db0 (applyIns (applyIns db0 L1) L2) h3
        simp only [snapMain, q_begin, snapshotPokemonTcgplayer, snapshotPokemonCardmarket,
          snapshotYgo, ← hL1, ← hL2, ← hL3, hok1, hok2, hE, q_rollback]
        exact ⟨hcom, trivial, trivial⟩
  · intro hnone
    rw [hall] at hnone
    have hall1 : ∀ i ∈ L1, fail i = false := fun i hi =>
      hnone i (List.mem_append.mpr (Or.inl (List.mem_append.mpr (Or.inl hi))))
    have hall2 : ∀ i ∈ L2, fail i = false := fun i hi =>
      hnone i (List.mem_append.mpr (Or.inl (List.mem_append.mpr (Or.inr hi))))
    have hall3 : ∀ i ∈ L3, fail i = false := fun i hi =>
      hnone i (List.mem_append.mpr (Or.inr hi))
    have hok1 := insertLoop_ok_all fail L1 db0 db0 hall1
    have hok2 := insertLoop_ok_all fail L2 db0 (applyIns db0 L1) hall2
    have hok3 := insertLoop_ok_all fail L3 db0 (applyIns (applyIns db0 L1) L2) hall3
    simp only [snapMain, q_begin, snapshotPokemonTcgplayer, snapshotPokemonCardmarket,
      snapshotYgo, ← hL1, ← hL2, ← hL3, hok1, hok2, hok3, q_commit, Option.getD_some]
    refine ⟨?_, by trivial, ?_⟩
    · rw [hall]
      simp [applyIns, List.foldl_append]
    · rw [hL1, hL2, hL3]
      simp [List.length_map]

/-- Witness for C3 at a concrete input: a run over one YGO row whose insert
fails rolls the history tables back to their initial contents and exits 1. -/
theorem snapshot_transactional_witness :
    (snapMain (fun _ => true) (fun _ => none) [] []
        [⟨"c1", none, none, none, none, none⟩] ⟨[], [], []⟩).db = ⟨[], [], []⟩ ∧
    (snapMain (fun _ => true) (fun _ => none) [] []
        [⟨"c1", none, none, none, none, none⟩] ⟨[], [], []⟩).exitCode = 1 ∧
    (snapMain (fun _ => true) (fun _ => none) [] []
        [⟨"c1", none, none, none, none, none⟩] ⟨[], [], []⟩).counts = none :=
  (snapshot_transactional (fun _ => true) (fun _ => none) [] []
      [⟨"c1", none, none, none, none, none⟩] ⟨[], [], []⟩).1
    ⟨HistIns.ygo (mkYgoHist ⟨"c1", none, none, none, none, none⟩), by simp [snapAllIns], rfl⟩

theorem launchFill_inFlight_le (c total : ℕ) :
    ∀ (fuel : ℕ) (s : PoolState), (launchFill c total fuel s).inFlight ≤ max s.inFlight c := by
  intro fuel
  induction fuel with
  | zero => intro s; exact le_max_left _ _
  | succ n ih =>
      intro s
      rw [launchFill]
      split
      · rename_i h
        have h1 : s.inFlight + 1 ≤ c := h.1
        have h2 := ih ⟨s.idx + 1, s.inFlight + 1, s.results⟩
        have hm : max (s.inFlight + 1) c = c := max_eq_right h1
        rw [hm] at h2
        exact le_trans h2 (le_max_right _ _)
      · exact le_max_left _ _

theorem poolReach_inFlight_le (c total : ℕ) :
    ∀ s, PoolReach c total s → s.inFlight ≤ c := by
  intro s h
  induction h with
  | init =>
      have h0 := launchFill_inFlight_le c total total ⟨0, 0, 0⟩
      simpa using h0
  | complete s' hreach hpos ih =>
      have h0 := launchFill_inFlight_le c total total ⟨s'.idx, s'.inFlight - 1, s'.results + 1⟩
      have hm : max (s'.inFlight - 1) c = c :=
        max_eq_right (le_trans (Nat.sub_le _ _) ih)
      rw [hm] at h0
      exact h0

/-- C5: during `poolRun` the number of requests in flight never exceeds the
configured concurrency (in particular with concurrency 4 and a batch of 20
ids, at most 4 calls are in flight in every reachable scheduler state), and
the effective concurrency is the numeric flag value clamped to `[1, 8]`,
defaulting to 4 when the flag is absent. -/
theorem poolRun_concurrency_bound :
    (∀ (c total : ℕ) (s : PoolState), PoolReach c total s → s.inFlight ≤ c) ∧
    (∀ s : PoolState, PoolReach 4 20 s → s.inFlight ≤ 4) ∧
    concurrencyFlag none = some 4 ∧
    (∀ (str : String) (q : ℚ), jsStrToNumber str = some q →
      ∃ cq : ℚ, concurrencyFlag (some str) = some cq ∧ 1 ≤ cq ∧ cq ≤ 8) := by
  refine ⟨fun c total s h => poolReach_inFlight_le c total s h,
    fun s h => poolReach_inFlight_le 4 20 s h, by with_unfolding_all rfl, ?_⟩
  intro str q hq
  refine ⟨min 8 (max 1 q), ?_, ?_, min_le_left _ _⟩
  · simp [concurrencyFlag, hq, jsMaxNum, jsMinNum]
  · exact le_min (by norm_num) (le_max_left 1 q)

/-- Witness for C5 at concrete inputs: the initial pool state for
concurrency 4 over a batch of 20 ids respects the bound, and the flag value
`"6"` clamps into `[1, 8]`. -/
theorem poolRun_concurrency_bound_witness :
    (poolInit 4 20).inFlight ≤ 4 ∧
    (∃ cq : ℚ, concurrencyFlag (some "6") = some cq ∧ 1 ≤ cq ∧ cq ≤ 8) :=
  ⟨poolRun_concurrency_bound.2.1 (poolInit 4 20) (PoolReach.init),
   poolRun_concurrency_bound.2.2.2 "6" 6 (by with_unfolding_all rfl)⟩

theorem mem_of_getLast?_eq {α : Type} : ∀ {l : List α} {a : α}, l.getLast? = some a → a ∈ l := by
  intro l
  induction l with
  | nil => intro a h; cases h
  | cons x rest ih =>
      intro a h
      cases rest with
      | nil =>
          simp only [List.getLast?_singleton, Option.some.injEq] at h
          rw [h]
          exact List.mem_singleton.mpr rfl
      | cons y t =>
          rw [List.getLast?_cons_cons] at h
          exact List.mem_cons_of_mem x (ih h)

theorem sorted_le_getLast? {α : Type} [LinearOrder α] :
    ∀ {l : List α}, l.Sorted (· ≤ ·) → ∀ {c : α}, l.getLast? = some c → ∀ x ∈ l, x ≤ c := by
  intro l
  induction l with
  | nil => intro _ c _ x hx; cases hx
  | cons a rest ih =>
      intro hs c hc x hx
      have hs' := List.sorted_cons.mp hs
      cases rest with
      | nil =>
          simp only [List.getLast?_singleton, Option.some.injEq] at hc
          rcases List.mem_singleton.mp hx with h
          rw [h, hc]
      | cons y t =>
          rw [List.getLast?_cons_cons] at hc
          rcases List.mem_cons.mp hx with h | h
          · rw [h]
            exact hs'.1 c (mem_of_getLast?_eq hc)
          · exact ih hs'.2 hc x h

theorem getIdsPage_sorted {α : Type} [LinearOrder α] (allIds : List α) (extra : α → Bool)
    (after : Option α) (limit : ℕ) :
    (getIdsPage allIds extra after limit).Sorted (· ≤ ·) := by
  unfold getIdsPage
  exact List.Pairwise.sublist (List.take_sublist _ _)
    (List.sorted_insertionSort (· ≤ ·) _)

theorem mem_getIdsPage {α : Type} [LinearOrder α] {allIds : List α} {extra : α → Bool}
    {after : Option α} {limit : ℕ} {x : α} :
    x ∈ getIdsPage allIds extra after limit →
      afterOk after x = true ∧ extra x = true ∧ x ∈ allIds := by
  intro hx
  unfold getIdsPage at hx
  have hx2 := List.take_subset _ _ hx
  rw [List.mem_insertionSort] at hx2
  have hf := List.mem_filter.mp hx2
  have hb := (Bool.and_eq_true _ _).mp hf.2
  exact ⟨hb.1, hb.2, hf.1⟩

theorem lt_of_mem_getIdsPage {α : Type} [LinearOrder α] {allIds : List α} {extra : α → Bool}
    {c : α} {limit : ℕ} {x : α} :
    x ∈ getIdsPage allIds extra (some c) limit → c < x := by
  intro hx
  have h := (mem_getIdsPage hx).1
  simp only [afterOk, decide_eq_true_eq] at h
  exact h

theorem errCount_append {α : Type} (outcome : α → FetchOutcome) (a b : List α) :
    errCount outcome (a ++ b) = errCount outcome a + errCount outcome b := by
  simp [errCount, poolResults, List.countP_append]

theorem foundCount_append {α : Type} (outcome : α → FetchOutcome) (a b : List α) :
    foundCount outcome (a ++ b) = foundCount outcome a + foundCount outcome b := by
  simp [foundCount, poolResults, List.countP_append]

theorem runBatch_dry {α : Type} [LinearOrder α] (cfg : HarvestCfg)
    (outcome : α → FetchOutcome) (st : RunState α) (ids : List α) (last : α)
    (hdry : cfg.dryRun = true) :
    runBatch cfg outcome st ids last =
      { st with
        processed := st.processed + ids.length,
        cursor := some last,
        file := some last,
        trace := Ev.save last :: st.trace,
        processedIds := st.processedIds ++ ids } := by
  simp [runBatch, hdry]

theorem runBatch_nondry {α : Type} [LinearOrder α] (cfg : HarvestCfg)
    (outcome : α → FetchOutcome) (st : RunState α) (ids : List α) (last : α)
    (hdry : cfg.dryRun = false) :
    runBatch cfg outcome st ids last =
      { st with
        processed := st.processed + ids.length,
        found := st.found + foundCount outcome ids,
        errors := st.errors + errCount outcome ids,
        cursor := some last,
        file := some last,
        trace := Ev.save last :: Ev.resolve ids :: st.trace,
        processedIds := st.processedIds ++ ids } := by
  simp [runBatch, hdry, foundCount, errCount]

theorem runBatch_cursor {α : Type} [LinearOrder α] (cfg : HarvestCfg)
    (outcome : α → FetchOutcome) (st : RunState α) (ids : List α) (last : α) :
    (runBatch cfg outcome st ids last).cursor = some last := by
  unfold runBatch
  split <;> rfl

theorem runBatch_file {α : Type} [LinearOrder α] (cfg : HarvestCfg)
    (outcome : α → FetchOutcome) (st : RunState α) (ids : List α) (last : α) :
    (runBatch cfg outcome st ids last).file = some last := by
  unfold runBatch
  split <;> rfl

theorem runBatch_processedIds {α : Type} [LinearOrder α] (cfg : HarvestCfg)
    (outcome : α → FetchOutcome) (st : RunState α) (ids : List α) (last : α) :
    (runBatch cfg outcome st ids last).processedIds = st.processedIds ++ ids := by
  unfold runBatch
  split <;> rfl

theorem mainLoop_traceOk {α : Type} [LinearOrder α] (cfg : HarvestCfg) (allIds : List α)
    (extra : α → Bool) (outcome : α → FetchOutcome) (hdry : cfg.dryRun = false) :
    ∀ (fuel : ℕ) (st : RunState α), TraceOk st.trace →
      TraceOk (mainLoop cfg allIds extra outcome fuel st).trace := by
  intro fuel
  induction fuel with
  | zero => intro st h; exact h
  | succ n ih =>
      intro st h
      simp only [mainLoop]
      split
      · exact h
      · set ids := (getIdsPage allIds extra st.cursor cfg.batch).take
          (if 0 < cfg.limit then cfg.limit - st.processed
           else (getIdsPage allIds extra st.cursor cfg.batch).length) with hids
        split
        · exact h
        · rename_i last heq
          rw [runBatch_nondry cfg outcome st ids last hdry]
          split
          · exact TraceOk.step ids last _ heq h
          · exact ih _ (TraceOk.step ids last _ heq h)

theorem mainLoop_cursorInv {α : Type} [LinearOrder α] (cfg : HarvestCfg) (allIds : List α)
    (extra : α → Bool) (outcome : α → FetchOutcome) :
    ∀ (fuel : ℕ) (st : RunState α), CursorInv st →
      CursorInv (mainLoop cfg allIds extra outcome fuel st) := by
  intro fuel
  induction fuel with
  | zero => intro st h; exact h
  | succ n ih =>
      intro st h
      simp only [mainLoop]
      split
      · exact h
      · set ids := (getIdsPage allIds extra st.cursor cfg.batch).take
          (if 0 < cfg.limit then cfg.limit - st.processed
           else (getIdsPage allIds extra st.cursor cfg.batch).length) with hids
        split
        · exact h
        · rename_i last heq
          have hsub : ids ⊆ getIdsPage allIds extra st.cursor cfg.batch := by
            rw [hids]
            exact List.take_subset _ _
          have hsorted : ids.Sorted (· ≤ ·) := by
            rw [hids]
            exact List.Pairwise.sublist (List.take_sublist _ _)
              (getIdsPage_sorted allIds extra st.cursor cfg.batch)
          have hle : ∀ x ∈ ids, x ≤ last := sorted_le_getLast? hsorted heq
          have hinv2 : CursorInv (runBatch cfg outcome st ids last) := by
            refine Or.inr ⟨last, runBatch_cursor cfg outcome st ids last,
              runBatch_file cfg outcome st ids last, ?_⟩
            rw [runBatch_processedIds]
            intro x hx
            rcases List.mem_append.mp hx with hx1 | hx2
            · rcases h with hnil | ⟨c, hc, _, hbound⟩
              · rw [hnil] at hx1
                cases hx1
              · have hlastpage := hsub (mem_of_getLast?_eq heq)
                rw [hc] at hlastpage
                exact le_trans (hbound x hx1) (le_of_lt (lt_of_mem_getIdsPage hlastpage))
            · exact hle x hx2
          split
          · exact hinv2
          · exact ih _ hinv2

theorem mainLoop_dry {α : Type} [LinearOrder α] (cfg : HarvestCfg) (allIds : List α)
    (extra : α → Bool) (outcome : α → FetchOutcome) (hdry : cfg.dryRun = true) :
    ∀ (fuel : ℕ) (st : RunState α),
      ((∀ e ∈ st.trace, isResolveEv e = false) →
        ∀ e ∈ (mainLoop cfg allIds extra outcome fuel st).trace, isResolveEv e = false) ∧
      (mainLoop cfg allIds extra outcome fuel st).found = st.found ∧
      (mainLoop cfg allIds extra outcome fuel st).errors = st.errors := by
  intro fuel
  induction fuel with
  | zero => intro st; exact ⟨fun h => h, rfl, rfl⟩
  | succ n ih =>
      intro st
      simp only [mainLoop]
      split
      · exact ⟨fun h => h, rfl, rfl⟩
      · set ids := (getIdsPage allIds extra st.cursor cfg.batch).take
          (if 0 < cfg.limit then cfg.limit - st.processed
           else (getIdsPage allIds extra st.cursor cfg.batch).length) with hids
        split
        · exact ⟨fun h => h, rfl, rfl⟩
        · rename_i last heq
          rw [runBatch_dry cfg outcome st ids last hdry]
          split
          · refine ⟨?_, rfl, rfl⟩
            intro h e he
            rcases List.mem_cons.mp he with h1 | h2
            · rw [h1]
              rfl
            · exact h e h2
          · have h3 := ih { st with
              processed := st.processed + ids.length,
              cursor := some last,
              file := some last,
              trace := Ev.save last :: st.trace,
              processedIds := st.processedIds ++ ids }
            refine ⟨?_, ?_, ?_⟩
            · intro h
              apply h3.1
              intro e he
              rcases List.mem_cons.mp he with h1 | h2
              · rw [h1]
                rfl
              · exact h e h2
            · rw [h3.2.1]
            · rw [h3.2.2]

theorem runBatch_ctrlEq {α : Type} [LinearOrder α] (cfg : HarvestCfg)
    (o₁ o₂ : α → FetchOutcome) (st₁ st₂ : RunState α) (ids : List α) (last : α)
    (h : CtrlEq st₁ st₂) : CtrlEq (runBatch cfg o₁ st₁ ids last) (runBatch cfg o₂ st₂ ids last) := by
  obtain ⟨h1, h2, h3, h4, h5⟩ := h
  unfold runBatch
  by_cases hd : cfg.dryRun = true
  · rw [if_pos hd, if_pos hd]
    exact ⟨by simp [h1], rfl, rfl, by simp [h4], by simp [h5]⟩
  · rw [if_neg hd, if_neg hd]
    exact ⟨by simp [h1], rfl, rfl, by simp [h4], by simp [h5]⟩

theorem mainLoop_ctrlEq {α : Type} [LinearOrder α] (cfg : HarvestCfg) (allIds : List α)
    (extra : α → Bool) (o₁ o₂ : α → FetchOutcome) :
    ∀ (fuel : ℕ) (st₁ st₂ : RunState α), CtrlEq st₁ st₂ →
      CtrlEq (mainLoop cfg allIds extra o₁ fuel st₁) (mainLoop cfg allIds extra o₂ fuel st₂) := by
  intro fuel
  induction fuel with
  | zero => intro _ _ h; exact h
  | succ n ih =>
      intro st₁ st₂ h
      obtain ⟨h1, h2, h3, h4, h5⟩ := h
      simp only [mainLoop]
      rw [h2, h1]
      by_cases hemp : (getIdsPage allIds extra st₂.cursor cfg.batch).isEmpty = true
      · rw [if_pos hemp, if_pos hemp]
        exact ⟨h1, h2, h3, h4, h5⟩
      · rw [if_neg hemp, if_neg hemp]
        set ids := (getIdsPage allIds extra st₂.cursor cfg.batch).take
          (if 0 < cfg.limit then cfg.limit - st₂.processed
           else (getIdsPage allIds extra st₂.cursor cfg.batch).length) with hids
        cases hlast : ids.getLast? with
        | none =>
            simp only [hlast]
            exact ⟨h1, h2, h3, h4, h5⟩
        | some last =>
            simp only [hlast]
            have hrb : CtrlEq (runBatch cfg o₁ st₁ ids last) (runBatch cfg o₂ st₂ ids last) :=
              runBatch_ctrlEq cfg o₁ o₂ st₁ st₂ ids last ⟨h1, h2, h3, h4, h5⟩
            by_cases hfin : 0 < cfg.limit ∧ cfg.limit ≤ (runBatch cfg o₂ st₂ ids last).processed
            · rw [if_pos hfin, if_pos (by rw [hrb.1]; exact hfin)]
              exact hrb
            · rw [if_neg hfin, if_neg (by rw [hrb.1]; exact hfin)]
              exact ih _ _ hrb

theorem mainLoop_counts {α : Type} [LinearOrder α] (cfg : HarvestCfg) (allIds : List α)
    (extra : α → Bool) (outcome : α → FetchOutcome) (hdry : cfg.dryRun = false) :
    ∀ (fuel : ℕ) (st : RunState α), ∃ ds : List α,
      (mainLoop cfg allIds extra outcome fuel st).processedIds = st.processedIds ++ ds ∧
      (mainLoop cfg allIds extra outcome fuel st).errors = st.errors + errCount outcome ds ∧
      (mainLoop cfg allIds extra outcome fuel st).found = st.found + foundCount outcome ds := by
  intro fuel
  induction fuel with
  | zero =>
      intro st
      exact ⟨[], by simp [mainLoop], by simp [mainLoop, errCount, poolResults],
        by simp [mainLoop, foundCount, poolResults]⟩
  | succ n ih =>
      intro st
      simp only [mainLoop]
      split
      · exact ⟨[], by simp, by simp [errCount, poolResults], by simp [foundCount, poolResults]⟩
      · set ids := (getIdsPage allIds extra st.cursor cfg.batch).take
          (if 0 < cfg.limit then cfg.limit - st.processed
           else (getIdsPage allIds extra st.cursor cfg.batch).length) with hids
        split
        · exact ⟨[], by simp, by simp [errCount, poolResults], by simp [foundCount, poolResults]⟩
        · rename_i last heq
          have hrb_pids := runBatch_processedIds cfg outcome st ids last
          have hrb_err : (runBatch cfg outcome st ids last).errors =
              st.errors + errCount outcome ids := by
            rw [runBatch_nondry cfg outcome st ids last hdry]
          have hrb_fnd : (runBatch cfg outcome st ids last).found =
              st.found + foundCount outcome ids := by
            rw [runBatch_nondry cfg outcome st ids last hdry]
          split
          · exact ⟨ids, hrb_pids, hrb_err, hrb_fnd⟩
          · obtain ⟨ds, hds1, hds2, hds3⟩ := ih (runBatch cfg outcome st ids last)
            refine ⟨ids ++ ds, ?_, ?_, ?_⟩
            · rw [hds1, hrb_pids, List.append_assoc]
            · rw [hds2, hrb_err, errCount_append, Nat.add_assoc]
            · rw [hds3, hrb_fnd, foundCount_append, Nat.add_assoc]

/-- C4: in a non-dry run the trace is an alternation of batch resolutions
and cursor writes: the persisted cursor is overwritten exactly once per
batch, only after every request of the batch has resolved, and its value is
the batch's last id; `getIdsPage` returns only ids strictly greater than the
cursor, in ascending order; and at every point the persisted cursor file
bounds all processed ids from above, so a subsequent run (querying strictly
above the persisted cursor) skips exactly the fully completed batches. -/
theorem harvester_cursor_after_batch {α : Type} [LinearOrder α] (cfg : HarvestCfg)
    (allIds : List α) (extra : α → Bool) (outcome : α → FetchOutcome) (fuel : ℕ)
    (st0 : RunState α) (hdry : cfg.dryRun = false)
    (htrace : st0.trace = []) (hpids : st0.processedIds = []) :
    TraceOk (mainLoop cfg allIds extra outcome fuel st0).trace ∧
    (∀ (c : α) (limit : ℕ) (x : α), x ∈ getIdsPage allIds extra (some c) limit → c < x) ∧
    (∀ (after : Option α) (limit : ℕ), (getIdsPage allIds extra after limit).Sorted (· ≤ ·)) ∧
    ((mainLoop cfg allIds extra outcome fuel st0).processedIds ≠ [] →
      ∃ c, (mainLoop cfg allIds extra outcome fuel st0).cursor = some c ∧
        (mainLoop cfg allIds extra outcome fuel st0).file = some c ∧
        ∀ x ∈ (mainLoop cfg allIds extra outcome fuel st0).processedIds, x ≤ c) := by
  refine ⟨?_, fun c limit x hx => lt_of_mem_getIdsPage hx,
    fun after limit => getIdsPage_sorted allIds extra after limit, ?_⟩
  · apply mainLoop_traceOk cfg allIds extra outcome hdry
    rw [htrace]
    exact TraceOk.nil
  · intro hne
    have hinv := mainLoop_cursorInv cfg allIds extra outcome fuel st0 (Or.inl hpids)
    rcases hinv with hnil | ⟨c, hc, hf, hb⟩
    · exact absurd hnil hne
    · exact ⟨c, hc, hf, hb⟩

/-- Witness for C4 at a concrete input: a run over id space `[1, 2, 3]` with
batch size 2 yields a well-formed trace, and the final cursor file bounds
every processed id. -/
theorem harvester_cursor_after_batch_witness :
    TraceOk (mainLoop (α := ℕ) ⟨0, 2, false⟩ [1, 2, 3] (fun _ => true)
        (fun _ => FetchOutcome.response true 200 true
          (some ⟨JPrim.jbool true, JPrim.jstr "3.5", JPrim.jnull, JPrim.jnull⟩))
        5 ⟨0, 0, 0, none, none, [], []⟩).trace ∧
    (∃ c, (mainLoop (α := ℕ) ⟨0, 2, false⟩ [1, 2, 3] (fun _ => true)
        (fun _ => FetchOutcome.response true 200 true
          (some ⟨JPrim.jbool true, JPrim.jstr "3.5", JPrim.jnull, JPrim.jnull⟩))
        5 ⟨0, 0, 0, none, none, [], []⟩).cursor = some c ∧
      (mainLoop (α := ℕ) ⟨0, 2, false⟩ [1, 2, 3] (fun _ => true)
        (fun _ => FetchOutcome.response true 200 true
          (some ⟨JPrim.jbool true, JPrim.jstr "3.5", JPrim.jnull, JPrim.jnull⟩))
        5 ⟨0, 0, 0, none, none, [], []⟩).file = some c ∧
      ∀ x ∈ (mainLoop (α := ℕ) ⟨0, 2, false⟩ [1, 2, 3] (fun _ => true)
        (fun _ => FetchOutcome.response true 200 true
          (some ⟨JPrim.jbool true, JPrim.jstr "3.5", JPrim.jnull, JPrim.jnull⟩))
        5 ⟨0, 0, 0, none, none, [], []⟩).processedIds, x ≤ c) :=
  have h := harvester_cursor_after_batch (α := ℕ) ⟨0, 2, false⟩ [1, 2, 3] (fun _ => true)
    (fun _ => FetchOutcome.response true 200 true
      (some ⟨JPrim.jbool true, JPrim.jstr "3.5", JPrim.jnull, JPrim.jnull⟩))
    5 ⟨0, 0, 0, none, none, [], []⟩ rfl rfl rfl
  ⟨h.1, h.2.2.2 (by decide)⟩

/-- C6: a transport-level failure, a non-2xx status, or an unparseable
(non-JSON) response body are each recorded as a harvester error; over an
entire run the error and found counters tally exactly the classification of
each processed id, and the run's control flow (batches fetched, cursor and
cursor-file writes, trace, set of processed ids) is completely independent
of the per-id outcomes — failing ids never abort the batch or the run. -/
theorem harvester_per_item_failures {α : Type} [LinearOrder α] (cfg : HarvestCfg)
    (allIds : List α) (extra : α → Bool) (o₁ o₂ : α → FetchOutcome) (fuel : ℕ)
    (st : RunState α) (hdry : cfg.dryRun = false) :
    (∀ oc : FetchOutcome, badFetch oc = true → classifyResult (fetchOne oc) = Outcome.err) ∧
    (∃ ds : List α,
      (mainLoop cfg allIds extra o₁ fuel st).processedIds = st.processedIds ++ ds ∧
      (mainLoop cfg allIds extra o₁ fuel st).errors = st.errors + errCount o₁ ds ∧
      (mainLoop cfg allIds extra o₁ fuel st).found = st.found + foundCount o₁ ds) ∧
    CtrlEq (mainLoop cfg allIds extra o₁ fuel st) (mainLoop cfg allIds extra o₂ fuel st) := by
  refine ⟨?_, mainLoop_counts cfg allIds extra o₁ hdry fuel st,
    mainLoop_ctrlEq cfg allIds extra o₁ o₂ fuel st st ⟨rfl, rfl, rfl, rfl, rfl⟩⟩
  intro oc hbad
  cases oc with
  | transportError m => rfl
  | response ok status ctJson body =>
      cases ok with
      | false => rfl
      | true =>
          cases body with
          | some j => simp [badFetch] at hbad
          | none =>
              cases ctJson with
              | false => rfl
              | true => rfl

/-- Witness for C6 at concrete inputs: a non-2xx JSON-less response is
classified as an error, and a run whose every fetch fails at transport level
has the same control behaviour as one whose every fetch succeeds. -/
theorem harvester_per_item_failures_witness :
    classifyResult (fetchOne (FetchOutcome.response false 500 true none)) = Outcome.err ∧
    CtrlEq
      (mainLoop (α := ℕ) ⟨0, 2, false⟩ [1, 2] (fun _ => true)
        (fun _ => FetchOutcome.transportError "boom") 3 ⟨0, 0, 0, none, none, [], []⟩)
      (mainLoop (α := ℕ) ⟨0, 2, false⟩ [1, 2] (fun _ => true)
        (fun _ => FetchOutcome.response true 200 true none) 3 ⟨0, 0, 0, none, none, [], []⟩) :=
  have h := harvester_per_item_failures (α := ℕ) ⟨0, 2, false⟩ [1, 2] (fun _ => true)
    (fun _ => FetchOutcome.transportError "boom")
    (fun _ => FetchOutcome.response true 200 true none) 3 ⟨0, 0, 0, none, none, [], []⟩ rfl
  ⟨h.1 (FetchOutcome.response false 500 true none) rfl, h.2.2⟩

/-- C10: a dry run dispatches no requests (no batch-resolution event ever
enters the trace and the found/error counters keep their initial values),
yet it still advances and overwrites the persisted cursor file with the last
id of each non-empty batch, so a later run without `--startAfter` (whose
cursor loads from the file) queries only ids strictly greater than every id
covered by the dry run. -/
theorem harvester_dry_run_cursor {α : Type} [LinearOrder α] (cfg : HarvestCfg)
    (allIds : List α) (extra : α → Bool) (outcome : α → FetchOutcome) (fuel : ℕ)
    (st0 : RunState α) (hdry : cfg.dryRun = true) (htrace : st0.trace = [])
    (hpids : st0.processedIds = []) :
    (∀ e ∈ (mainLoop cfg allIds extra outcome fuel st0).trace, isResolveEv e = false) ∧
    (mainLoop cfg allIds extra outcome fuel st0).found = st0.found ∧
    (mainLoop cfg allIds extra outcome fuel st0).errors = st0.errors ∧
    ((mainLoop cfg allIds extra outcome fuel st0).processedIds ≠ [] →
      ∃ c, (mainLoop cfg allIds extra outcome fuel st0).file = some c ∧
        loadCursor none (mainLoop cfg allIds extra outcome fuel st0).file = some c ∧
        (∀ x ∈ (mainLoop cfg allIds extra outcome fuel st0).processedIds, x ≤ c) ∧
        (∀ (limit : ℕ) (y : α), y ∈ getIdsPage allIds extra (some c) limit →
          ∀ x ∈ (mainLoop cfg allIds extra outcome fuel st0).processedIds, x < y)) := by
  have hd := mainLoop_dry cfg allIds extra outcome hdry fuel st0
  refine ⟨hd.1 ?_, hd.2.1, hd.2.2, ?_⟩
  · rw [htrace]
    intro e he
    cases he
  · intro hne
    have hinv := mainLoop_cursorInv cfg allIds extra outcome fuel st0 (Or.inl hpids)
    rcases hinv with hnil | ⟨c, _, hf, hb⟩
    · exact absurd hnil hne
    · refine ⟨c, hf, by rw [hf]; rfl, hb, ?_⟩
      intro limit y hy x hx
      exact lt_of_le_of_lt (hb x hx) (lt_of_mem_getIdsPage hy)

/-- Witness for C10 at a concrete input: a dry run over `[1, 2, 3]` records
no resolution events, keeps zero counters, and leaves a cursor file value
bounding all covered ids, so the follow-up page is strictly beyond them. -/
theorem harvester_dry_run_cursor_witness :
    (∀ e ∈ (mainLoop (α := ℕ) ⟨0, 2, true⟩ [1, 2, 3] (fun _ => true)
        (fun _ => FetchOutcome.transportError "x") 5 ⟨0, 0, 0, none, none, [], []⟩).trace,
      isResolveEv e = false) ∧
    (∃ c, (mainLoop (α := ℕ) ⟨0, 2, true⟩ [1, 2, 3] (fun _ => true)
        (fun _ => FetchOutcome.transportError "x") 5 ⟨0, 0, 0, none, none, [], []⟩).file =
          some c ∧
      loadCursor none (mainLoop (α := ℕ) ⟨0, 2, true⟩ [1, 2, 3] (fun _ => true)
        (fun _ => FetchOutcome.transportError "x") 5 ⟨0, 0, 0, none, none, [], []⟩).file =
          some c ∧
      (∀ x ∈ (mainLoop (α := ℕ) ⟨0, 2, true⟩ [1, 2, 3] (fun _ => true)
        (fun _ => FetchOutcome.transportError "x") 5 ⟨0, 0, 0, none, none, [], []⟩).processedIds,
        x ≤ c) ∧
      (∀ (limit : ℕ) (y : ℕ), y ∈ getIdsPage [1, 2, 3] (fun _ => true) (some c) limit →
        ∀ x ∈ (mainLoop (α := ℕ) ⟨0, 2, true⟩ [1, 2, 3] (fun _ => true)
          (fun _ => FetchOutcome.transportError "x") 5
            ⟨0, 0, 0, none, none, [], []⟩).processedIds, x < y)) :=
  have h := harvester_dry_run_cursor (α := ℕ) ⟨0, 2, true⟩ [1, 2, 3] (fun _ => true)
    (fun _ => FetchOutcome.transportError "x") 5 ⟨0, 0, 0, none, none, [], []⟩ rfl rfl rfl
  ⟨h.1, h.2.2.2 (by decide)⟩
